import Mathlib

/-!
A formal model of the tower-defense simulation core found in
src/tower-defense-game/main.js, with theorems checking the natural-language
specification against the code.

Modelling conventions:
* JavaScript numbers are modelled as exact rationals (ℚ); money and lives are
  integers (ℤ), matching the integral values the program stores in them.
* `Math.hypot` (and `Math.cos`/`Math.sin` for the spike bolt) return irrational
  values, so every definition that uses them takes the primitive as an explicit
  function argument `hypot : ℚ → ℚ → ℚ` (resp. `cosF sinF : ℚ → ℚ`); theorems
  assume exactly the properties of the primitive at the points where the code
  uses it, and witnesses instantiate it with a concrete function agreeing with
  the real primitive at those points.
* Methods that mutate shared globals (`money`, `lives`) are modelled by
  explicit state passing: they take and return the global alongside the entity.
-/

namespace TD

/-- JavaScript `Math.round`: round half toward positive infinity. -/
def jsRound (q : ℚ) : ℤ := ⌊q + 1/2⌋

/-- JavaScript `v || 1` for a numeric `v`: `0` is falsy and is replaced by `1`. -/
def jsOrOne (q : ℚ) : ℚ := if q = 0 then 1 else q

/-- An immutable 2-D point, as used in the path polylines. -/
structure Point where
  x : ℚ
  y : ℚ
deriving DecidableEq

/-- `normalize(dx,dy)` from main.js: `const d=Math.hypot(dx,dy)||1; return {x:dx/d,y:dy/d};` -/
def normalize (hypot : ℚ → ℚ → ℚ) (dx dy : ℚ) : ℚ × ℚ :=
  let d0 := hypot dx dy
  let d := if d0 = 0 then 1 else d0
  (dx / d, dy / d)

/-- The `Enemy` entity of main.js.  The path polyline reference `this.path` is
stored in the structure; the global `money`/`lives` counters are passed
explicitly to the methods that touch them. -/
structure Enemy where
  hp : ℚ
  maxHp : ℚ
  baseSpeed : ℚ
  radius : ℚ
  path : List Point
  waypoint : ℕ
  x : ℚ
  y : ℚ
  alive : Bool
  bleedDps : ℚ
  bleedTimer : ℚ
  slowFactor : ℚ
  slowTimer : ℚ
  stunTimer : ℚ
deriving DecidableEq

/-- The `Enemy` constructor for a given path: starts at the path's first point
with neutral status (`bleedDps=0, bleedTimer=0, slowFactor=1, slowTimer=0,
stunTimer=0`), `waypoint = 0`, `radius = 10`, and full hp. -/
def mkEnemy (hp speed : ℚ) (path : List Point) : Enemy :=
  { hp := hp, maxHp := hp, baseSpeed := speed, radius := 10
    path := path, waypoint := 0
    x := (path.headD ⟨0, 0⟩).x, y := (path.headD ⟨0, 0⟩).y
    alive := true
    bleedDps := 0, bleedTimer := 0, slowFactor := 1, slowTimer := 0
    stunTimer := 0 }

/-- `Enemy.applyBleed(dps, duration)`: take strongest dps, refresh duration. -/
def Enemy.applyBleed (dps duration : ℚ) (e : Enemy) : Enemy :=
  { e with bleedDps := max e.bleedDps dps, bleedTimer := max e.bleedTimer duration }

/-- `Enemy.applySlow(factor, duration)`: take strongest slow (min factor),
refresh duration. -/
def Enemy.applySlow (factor duration : ℚ) (e : Enemy) : Enemy :=
  { e with slowFactor := min e.slowFactor factor, slowTimer := max e.slowTimer duration }

/-- `Enemy.applyStun(duration)`. -/
def Enemy.applyStun (duration : ℚ) (e : Enemy) : Enemy :=
  { e with stunTimer := max e.stunTimer duration }

/-- `Enemy.die()`: awards `Math.round(10 * diffMods.moneyMult)` once; a second
call is a no-op because of the `if (!this.alive) return;` guard. -/
def Enemy.die (mm : ℚ) (e : Enemy) (money : ℤ) : Enemy × ℤ :=
  if e.alive = false then (e, money)
  else ({ e with alive := false }, money + jsRound (10 * mm))

/-- `Enemy.reachEnd()`: deducts one life; guarded by `if (!this.alive) return;`. -/
def Enemy.reachEnd (e : Enemy) (lives : ℤ) : Enemy × ℤ :=
  if e.alive = false then (e, lives)
  else ({ e with alive := false }, lives - 1)

/-- `Enemy.takeDamage(d)`: subtract hp, then `if (this.hp <= 0) this.die();`. -/
def Enemy.takeDamage (mm d : ℚ) (e : Enemy) (money : ℤ) : Enemy × ℤ :=
  let e1 := { e with hp := e.hp - d }
  if e1.hp ≤ 0 then Enemy.die mm e1 money else (e1, money)

/-- `Enemy.knockback(distance)` from main.js.  The first line is
`if (this.waypoint <= 0) return;`, so the trailing `else` branch (the 90 %
cap at the first waypoint) is unreachable; it is still translated.  The
`none` match arms correspond to out-of-range path indexing, where the source
would produce NaN coordinates; they are unreachable for an enemy that was
created on its own path. -/
def Enemy.knockback (hypot : ℚ → ℚ → ℚ) (distance : ℚ) (e : Enemy) : Enemy :=
  if e.waypoint ≤ 0 then e
  else
    match e.path.get? e.waypoint with
    | none => e
    | some a =>
      let b := (e.path.get? (e.waypoint + 1)).getD a
      let dir := normalize hypot (b.x - a.x) (b.y - a.y)
      let newX := e.x - dir.1 * distance
      let newY := e.y - dir.2 * distance
      if e.waypoint > 0 then
        match e.path.get? (e.waypoint - 1) with
        | none => e
        | some prev =>
          let distToPrev := hypot (newX - prev.x) (newY - prev.y)
          let distCurrToPrev := hypot (a.x - prev.x) (a.y - prev.y)
          if distToPrev < distCurrToPrev then
            let prevDir := normalize hypot (a.x - prev.x) (a.y - prev.y)
            let remainingDist := distance - hypot (e.x - a.x) (e.y - a.y)
            { e with waypoint := e.waypoint - 1
                     x := a.x - prevDir.1 * min remainingDist (distCurrToPrev * 0.9)
                     y := a.y - prevDir.2 * min remainingDist (distCurrToPrev * 0.9) }
          else
            { e with x := newX, y := newY }
      else
        let maxBack := hypot (e.x - a.x) (e.y - a.y) * 0.9
        let actualDist := min distance maxBack
        { e with x := e.x - dir.1 * actualDist, y := e.y - dir.2 * actualDist }

/-- `Enemy.validatePosition()`: project the position onto the current segment
and snap back when the perpendicular drift exceeds 5 px. -/
def Enemy.validatePosition (hypot : ℚ → ℚ → ℚ) (e : Enemy) : Enemy :=
  match e.path.get? e.waypoint, e.path.get? (e.waypoint + 1) with
  | some curr, some next =>
      let segX := next.x - curr.x
      let segY := next.y - curr.y
      let segLenSq := segX * segX + segY * segY
      if segLenSq > 0 then
        let t := max 0 (min 1 (((e.x - curr.x) * segX + (e.y - curr.y) * segY) / segLenSq))
        let projX := curr.x + t * segX
        let projY := curr.y + t * segY
        let distFromPath := hypot (e.x - projX) (e.y - projY)
        if distFromPath > 5 then { e with x := projX, y := projY } else e
      else e
  | _, _ => e

/-- The movement ("Traveling") section of `Enemy.update(dt)`: everything after
the stun check, translated line by line.  Returns the moved enemy and the
updated `lives` global (`reachEnd` may deduct a life). -/
def Enemy.moveStep (hypot : ℚ → ℚ → ℚ) (gs dt : ℚ) (e : Enemy)
    (lives : ℤ) : Enemy × ℤ :=
  match e.path.get? (e.waypoint + 1) with
  | none =>
      -- No next target means we're at the end
      if (e.waypoint : ℤ) ≥ (e.path.length : ℤ) - 1 then Enemy.reachEnd e lives
      else (e, lives)
  | some target =>
      let dx := target.x - e.x
      let dy := target.y - e.y
      let distToTarget := hypot dx dy
      let speed := e.baseSpeed * e.slowFactor * gs
      let moveDistance := speed * dt
      if distToTarget ≤ moveDistance + 2 then
        -- Snap to waypoint to avoid overshooting
        let e3 := { e with x := target.x, y := target.y, waypoint := e.waypoint + 1 }
        if (e3.waypoint : ℤ) ≥ (e3.path.length : ℤ) - 1 then Enemy.reachEnd e3 lives
        else
          -- If there's remaining movement, continue to next segment
          let remainingMove := moveDistance - distToTarget
          let e4 :=
            if remainingMove > 0 then
              match e3.path.get? (e3.waypoint + 1) with
              | some newTarget =>
                  let ndx := newTarget.x - e3.x
                  let ndy := newTarget.y - e3.y
                  let ndist := hypot ndx ndy
                  if ndist > 0 then
                    { e3 with x := e3.x + ndx / ndist * min remainingMove ndist
                              y := e3.y + ndy / ndist * min remainingMove ndist }
                  else e3
              | none => e3
            else e3
          (Enemy.validatePosition hypot e4, lives)
      else
        -- Normal movement toward waypoint
        let e3 := { e with x := e.x + dx / distToTarget * moveDistance
                           y := e.y + dy / distToTarget * moveDistance }
        (Enemy.validatePosition hypot e3, lives)

/-- The "Apply bleed" block of `Enemy.update(dt)` (without the early death
return, which `update` itself handles). -/
def Enemy.bleedPhase (dt : ℚ) (e : Enemy) : Enemy :=
  if e.bleedTimer > 0 then
    let bt := e.bleedTimer - dt
    { e with hp := e.hp - e.bleedDps * dt
             bleedTimer := bt
             bleedDps := if bt ≤ 0 then 0 else e.bleedDps }
  else e

/-- The "Slow timer decay" block of `Enemy.update(dt)`. -/
def Enemy.slowPhase (dt : ℚ) (e : Enemy) : Enemy :=
  if e.slowTimer > 0 then
    let st := e.slowTimer - dt
    { e with slowTimer := st
             slowFactor := if st ≤ 0 then 1 else e.slowFactor }
  else e

/-- `Enemy.update(dt)` from main.js, translated line by line.  `gs` is the
global `gameSpeed` (the simulation clock's speed multiplier), `mm` the active
difficulty's money multiplier used by `die()`.  Returns the updated enemy
together with the updated `money` and `lives` globals. -/
def Enemy.update (hypot : ℚ → ℚ → ℚ) (gs mm dt : ℚ) (e : Enemy)
    (money lives : ℤ) : Enemy × ℤ × ℤ :=
  if e.alive = false then (e, money, lives)
  else
    -- Apply bleed
    let e1 := Enemy.bleedPhase dt e
    if e.bleedTimer > 0 ∧ e1.hp ≤ 0 then
      let d := Enemy.die mm e1 money
      (d.1, d.2, lives)
    else
      -- Slow timer decay
      let e2 := Enemy.slowPhase dt e1
      -- Stun handling: no movement while stunned
      if e2.stunTimer > 0 then
        ({ e2 with stunTimer := e2.stunTimer - dt }, money, lives)
      else
        let r := Enemy.moveStep hypot gs dt e2 lives
        (r.1, money, r.2)

/-- The status-effect invariant stated by the spec: a timer at (or below) 0
means the associated effect is neutral. -/
def statusInv (e : Enemy) : Prop :=
  (e.bleedTimer ≤ 0 → e.bleedDps = 0) ∧ (e.slowTimer ≤ 0 → e.slowFactor = 1)

instance (e : Enemy) : Decidable (statusInv e) := by
  unfold statusInv; infer_instance

/-- The enemy operations named by the spec, as a tagged sum so that a single
statement can quantify over arbitrary call sequences. -/
inductive EOp where
  | update (dt : ℚ)
  | applyBleed (dps duration : ℚ)
  | applySlow (factor duration : ℚ)
  | applyStun (duration : ℚ)
  | knockback (distance : ℚ)
  | takeDamage (d : ℚ)
  | die

/-- The documented argument ranges for each operation (with strictly positive
durations). -/
def opInRange : EOp → Prop
  | .applyBleed dps dur => 0 ≤ dps ∧ 0 < dur
  | .applySlow f dur => 0 < f ∧ f ≤ 1 ∧ 0 < dur
  | .applyStun dur => 0 ≤ dur
  | _ => True

instance (op : EOp) : Decidable (opInRange op) := by
  cases op <;> (unfold opInRange; infer_instance)

/-- Dispatch one operation against the enemy plus the shared `money`/`lives`
globals. -/
def applyOp (hypot : ℚ → ℚ → ℚ) (gs mm : ℚ) (op : EOp) (s : Enemy × ℤ × ℤ) :
    Enemy × ℤ × ℤ :=
  match op with
  | .update dt => Enemy.update hypot gs mm dt s.1 s.2.1 s.2.2
  | .applyBleed dps dur => (Enemy.applyBleed dps dur s.1, s.2)
  | .applySlow f dur => (Enemy.applySlow f dur s.1, s.2)
  | .applyStun dur => (Enemy.applyStun dur s.1, s.2)
  | .knockback d => (Enemy.knockback hypot d s.1, s.2)
  | .takeDamage d =>
      let r := Enemy.takeDamage mm d s.1 s.2.1
      (r.1, r.2, s.2.2)
  | .die =>
      let r := Enemy.die mm s.1 s.2.1
      (r.1, r.2, s.2.2)

/-- Apply a whole sequence of operations in order. -/
def applyOps (hypot : ℚ → ℚ → ℚ) (gs mm : ℚ) : List EOp → Enemy × ℤ × ℤ → Enemy × ℤ × ℤ
  | [], s => s
  | op :: ops, s => applyOps hypot gs mm ops (applyOp hypot gs mm op s)

/-- The `AcidPool` area entity of main.js. -/
structure AcidPool where
  x : ℚ
  y : ℚ
  radius : ℚ
  timer : ℚ
  dps : ℚ
  slow : ℚ
  alive : Bool
deriving DecidableEq

/-- `AcidPool.update(dt)`: count the lifetime down by `dt`; while alive, every
living enemy inside the radius is slowed (factor `slow`, 0.5 s) and takes
`dps × dt` damage (dying enemies award money through `die()`). -/
def AcidPool.update (hypot : ℚ → ℚ → ℚ) (mm dt : ℚ) (p : AcidPool)
    (enemies : List Enemy) (money : ℤ) : AcidPool × List Enemy × ℤ :=
  if p.alive = false then (p, enemies, money)
  else
    let t := p.timer - dt
    if t ≤ 0 then ({ p with timer := t, alive := false }, enemies, money)
    else
      let step := fun (acc : List Enemy × ℤ) (e : Enemy) =>
        if e.alive = false then (acc.1 ++ [e], acc.2)
        else if hypot (e.x - p.x) (e.y - p.y) ≤ p.radius then
          let e1 := { (Enemy.applySlow p.slow 0.5 e) with
                        hp := e.hp - p.dps * dt }
          if e1.hp ≤ 0 then
            let r := Enemy.die mm e1 acc.2
            (acc.1 ++ [r.1], r.2)
          else (acc.1 ++ [e1], acc.2)
        else (acc.1 ++ [e], acc.2)
      let r := enemies.foldl step ([], money)
      ({ p with timer := t }, r.1, r.2)

/-- The `SpikeProjectile` pierce bolt of main.js. -/
structure SpikeProjectile where
  x : ℚ
  y : ℚ
  angle : ℚ
  speed : ℚ
  damage : ℚ
  pierce : ℚ
  alive : Bool
deriving DecidableEq

/-- The contact loop of `SpikeProjectile.update`: walk the enemy list in order;
each living enemy within `radius + 4` of the bolt takes one `takeDamage` hit
and decrements the pierce counter; when the counter reaches 0 the loop breaks
with the bolt dead, leaving the rest of the list untouched.  Returns the
updated list, the remaining pierce, whether the bolt survived the loop, and
the updated money. -/
def spikeHitLoop (hypot : ℚ → ℚ → ℚ) (mm sx sy damage : ℚ) :
    List Enemy → ℚ → ℤ → List Enemy × ℚ × Bool × ℤ
  | [], pierce, money => ([], pierce, true, money)
  | e :: rest, pierce, money =>
      if e.alive = true ∧ hypot (e.x - sx) (e.y - sy) < e.radius + 4 then
        let hit := Enemy.takeDamage mm damage e money
        let p1 := pierce - 1
        if p1 ≤ 0 then (hit.1 :: rest, p1, false, hit.2)
        else
          let r := spikeHitLoop hypot mm sx sy damage rest p1 hit.2
          (hit.1 :: r.1, r.2.1, r.2.2.1, r.2.2.2)
      else
        let r := spikeHitLoop hypot mm sx sy damage rest pierce money
        (e :: r.1, r.2.1, r.2.2.1, r.2.2.2)

/-- `SpikeProjectile.update(dt)`: advance along the fixed heading by
`speed*dt*gameSpeed`, run the contact loop, then deactivate when out of the
`W × H` playfield plus a 40 px margin. -/
def SpikeProjectile.update (hypot : ℚ → ℚ → ℚ) (cosF sinF : ℚ → ℚ)
    (wBound hBound gs mm dt : ℚ) (s : SpikeProjectile)
    (enemies : List Enemy) (money : ℤ) : SpikeProjectile × List Enemy × ℤ :=
  if s.alive = false then (s, enemies, money)
  else
    let step := s.speed * dt * gs
    let x1 := s.x + cosF s.angle * step
    let y1 := s.y + sinF s.angle * step
    let r := spikeHitLoop hypot mm x1 y1 s.damage enemies s.pierce money
    let s1 := { s with x := x1, y := y1, pierce := r.2.1, alive := r.2.2.1 }
    if x1 < -40 ∨ x1 > wBound + 40 ∨ y1 < -40 ∨ y1 > hBound + 40 then
      ({ s1 with alive := false }, r.1, r.2.2.2)
    else (s1, r.1, r.2.2.2)

/-- The regular-enemy spawn count computed by `startNextWave` in main.js:
`baseCount = 6 + Math.floor(wave * 1.2)`;
`count = Math.max(1, Math.round(baseCount * (mapModifiers.countMult || 1)))`. -/
def startWaveCount (wave : ℕ) (countMult : ℚ) : ℤ :=
  let baseCount : ℤ := 6 + ⌊(wave : ℚ) * 1.2⌋
  max 1 (jsRound ((baseCount : ℚ) * jsOrOne countMult))

/-- The spawn-count formula in the spec's words: `max(1, round((6 + floor(1.2
× waveNumber)) × countMult))`. -/
def specWaveCount (wave : ℕ) (countMult : ℚ) : ℤ :=
  max 1 (jsRound (((6 + ⌊1.2 * (wave : ℚ)⌋ : ℤ) : ℚ) * countMult))

/-- One step of the `findNearestEnemy` loop; the accumulator is the best
candidate so far with its distance (`none` plays the role of the `Infinity`
sentinel). -/
def stepNearest (dist : Enemy → ℚ) (range : ℚ)
    (acc : Option Enemy × Option ℚ) (e : Enemy) : Option Enemy × Option ℚ :=
  if e.alive = false then acc
  else
    let d := dist e
    match acc.2 with
    | none => if d ≤ range then (some e, some d) else acc
    | some bd => if d ≤ range ∧ d < bd then (some e, some d) else acc

/-- `findNearestEnemy(x,y,range,enemies)` from main.js: the nearest living
enemy within `range`, scanning the list in order with a strict improvement
test (so the first enemy found wins ties). -/
def findNearestEnemy (hypot : ℚ → ℚ → ℚ) (x y range : ℚ)
    (enemies : List Enemy) : Option Enemy :=
  (enemies.foldl (stepNearest (fun e => hypot (e.x - x) (e.y - y)) range)
    (none, none)).1

/-- Specification-side description of the nearest search: the first element of
the list attaining the minimal distance among living in-range elements. -/
def firstMin (dist : Enemy → ℚ) (range : ℚ) : List Enemy → Option Enemy
  | [] => none
  | e :: l =>
      if e.alive = true ∧ dist e ≤ range then
        match firstMin dist range l with
        | none => some e
        | some b => if dist e ≤ dist b then some e else some b
      else firstMin dist range l

/-! ### Concrete fixtures used by witnesses and counterexamples -/

/-- A concrete stand-in for the `Math.hypot` primitive (its value is irrelevant
to the statements that use it). -/
def hypot0 : ℚ → ℚ → ℚ := fun _ _ => 0

/-- A two-point horizontal path. -/
def path0 : List Point := [⟨0, 0⟩, ⟨100, 0⟩]

/-- An enemy at waypoint 0, 10 px past the first path point of `path0`. -/
def eC2 : Enemy := { mkEnemy 100 5 path0 with x := 10 }

/-- A fully-statused enemy used to exhibit timer decay during pause. -/
def eC1 : Enemy :=
  { mkEnemy 100 5 path0 with x := 50, bleedDps := 5, bleedTimer := 1,
                             slowFactor := 0.8, slowTimer := 1, stunTimer := 1 }

/-- An acid pool used to exhibit lifetime decay during pause. -/
def poolC1 : AcidPool :=
  { x := 0, y := 0, radius := 30, timer := 3, dps := 4, slow := 0.6, alive := true }

/-- A stunned, bleeding enemy whose bleed tick is lethal. -/
def eC5 : Enemy :=
  { mkEnemy 1 5 path0 with bleedDps := 100, bleedTimer := 1, stunTimer := 1 }

/-! ### Structural lemmas about the entity operations -/

/-- `die` never leaves the enemy alive. -/
@[simp] lemma die_fst_alive (mm : ℚ) (e : Enemy) (m : ℤ) :
    (Enemy.die mm e m).1.alive = false := by
  unfold Enemy.die; split_ifs with h <;> simp_all

/-- The money result of `die`: the reward is paid exactly when the enemy was
still alive. -/
lemma die_snd (mm : ℚ) (e : Enemy) (m : ℤ) :
    (Enemy.die mm e m).2 = if e.alive = true then m + jsRound (10 * mm) else m := by
  unfold Enemy.die; split_ifs with h h2 <;> simp_all

@[simp] lemma die_bleedDps (mm : ℚ) (e : Enemy) (m : ℤ) :
    (Enemy.die mm e m).1.bleedDps = e.bleedDps := by
  unfold Enemy.die; split_ifs <;> rfl

@[simp] lemma die_bleedTimer (mm : ℚ) (e : Enemy) (m : ℤ) :
    (Enemy.die mm e m).1.bleedTimer = e.bleedTimer := by
  unfold Enemy.die; split_ifs <;> rfl

@[simp] lemma die_slowFactor (mm : ℚ) (e : Enemy) (m : ℤ) :
    (Enemy.die mm e m).1.slowFactor = e.slowFactor := by
  unfold Enemy.die; split_ifs <;> rfl

@[simp] lemma die_slowTimer (mm : ℚ) (e : Enemy) (m : ℤ) :
    (Enemy.die mm e m).1.slowTimer = e.slowTimer := by
  unfold Enemy.die; split_ifs <;> rfl

@[simp] lemma die_stunTimer (mm : ℚ) (e : Enemy) (m : ℤ) :
    (Enemy.die mm e m).1.stunTimer = e.stunTimer := by
  unfold Enemy.die; split_ifs <;> rfl

/-- `reachEnd` never leaves the enemy alive. -/
@[simp] lemma reachEnd_fst_alive (e : Enemy) (l : ℤ) :
    (Enemy.reachEnd e l).1.alive = false := by
  unfold Enemy.reachEnd; split_ifs with h <;> simp_all

/-- The lives result of `reachEnd`. -/
lemma reachEnd_snd (e : Enemy) (l : ℤ) :
    (Enemy.reachEnd e l).2 = if e.alive = true then l - 1 else l := by
  unfold Enemy.reachEnd; split_ifs with h h2 <;> simp_all

@[simp] lemma reachEnd_bleedDps (e : Enemy) (l : ℤ) :
    (Enemy.reachEnd e l).1.bleedDps = e.bleedDps := by
  unfold Enemy.reachEnd; split_ifs <;> rfl

@[simp] lemma reachEnd_bleedTimer (e : Enemy) (l : ℤ) :
    (Enemy.reachEnd e l).1.bleedTimer = e.bleedTimer := by
  unfold Enemy.reachEnd; split_ifs <;> rfl

@[simp] lemma reachEnd_slowFactor (e : Enemy) (l : ℤ) :
    (Enemy.reachEnd e l).1.slowFactor = e.slowFactor := by
  unfold Enemy.reachEnd; split_ifs <;> rfl

@[simp] lemma reachEnd_slowTimer (e : Enemy) (l : ℤ) :
    (Enemy.reachEnd e l).1.slowTimer = e.slowTimer := by
  unfold Enemy.reachEnd; split_ifs <;> rfl

@[simp] lemma reachEnd_stunTimer (e : Enemy) (l : ℤ) :
    (Enemy.reachEnd e l).1.stunTimer = e.stunTimer := by
  unfold Enemy.reachEnd; split_ifs <;> rfl

@[simp] lemma reachEnd_hp (e : Enemy) (l : ℤ) :
    (Enemy.reachEnd e l).1.hp = e.hp := by
  unfold Enemy.reachEnd; split_ifs <;> rfl

@[simp] lemma validate_alive (hypot : ℚ → ℚ → ℚ) (e : Enemy) :
    (Enemy.validatePosition hypot e).alive = e.alive := by
  unfold Enemy.validatePosition; split <;> (try rfl) <;> dsimp only <;> split_ifs <;> rfl

@[simp] lemma validate_bleedDps (hypot : ℚ → ℚ → ℚ) (e : Enemy) :
    (Enemy.validatePosition hypot e).bleedDps = e.bleedDps := by
  unfold Enemy.validatePosition; split <;> (try rfl) <;> dsimp only <;> split_ifs <;> rfl

@[simp] lemma validate_bleedTimer (hypot : ℚ → ℚ → ℚ) (e : Enemy) :
    (Enemy.validatePosition hypot e).bleedTimer = e.bleedTimer := by
  unfold Enemy.validatePosition; split <;> (try rfl) <;> dsimp only <;> split_ifs <;> rfl

@[simp] lemma validate_slowFactor (hypot : ℚ → ℚ → ℚ) (e : Enemy) :
    (Enemy.validatePosition hypot e).slowFactor = e.slowFactor := by
  unfold Enemy.validatePosition; split <;> (try rfl) <;> dsimp only <;> split_ifs <;> rfl

@[simp] lemma validate_slowTimer (hypot : ℚ → ℚ → ℚ) (e : Enemy) :
    (Enemy.validatePosition hypot e).slowTimer = e.slowTimer := by
  unfold Enemy.validatePosition; split <;> (try rfl) <;> dsimp only <;> split_ifs <;> rfl

@[simp] lemma validate_stunTimer (hypot : ℚ → ℚ → ℚ) (e : Enemy) :
    (Enemy.validatePosition hypot e).stunTimer = e.stunTimer := by
  unfold Enemy.validatePosition; split <;> (try rfl) <;> dsimp only <;> split_ifs <;> rfl

@[simp] lemma validate_waypoint (hypot : ℚ → ℚ → ℚ) (e : Enemy) :
    (Enemy.validatePosition hypot e).waypoint = e.waypoint := by
  unfold Enemy.validatePosition; split <;> (try rfl) <;> dsimp only <;> split_ifs <;> rfl

@[simp] lemma validate_hp (hypot : ℚ → ℚ → ℚ) (e : Enemy) :
    (Enemy.validatePosition hypot e).hp = e.hp := by
  unfold Enemy.validatePosition; split <;> (try rfl) <;> dsimp only <;> split_ifs <;> rfl

/-- The movement step only changes position, waypoint, aliveness and lives:
hp and the status fields are untouched. -/
lemma moveStep_fields (hypot : ℚ → ℚ → ℚ) (gs dt : ℚ) (e : Enemy) (l : ℤ) :
    (Enemy.moveStep hypot gs dt e l).1.bleedDps = e.bleedDps ∧
    (Enemy.moveStep hypot gs dt e l).1.bleedTimer = e.bleedTimer ∧
    (Enemy.moveStep hypot gs dt e l).1.slowFactor = e.slowFactor ∧
    (Enemy.moveStep hypot gs dt e l).1.slowTimer = e.slowTimer ∧
    (Enemy.moveStep hypot gs dt e l).1.stunTimer = e.stunTimer ∧
    (Enemy.moveStep hypot gs dt e l).1.hp = e.hp := by
  unfold Enemy.moveStep
  split
  · split_ifs <;> simp
  · dsimp only
    split_ifs <;> (try simp) <;> (try (split <;> (try split_ifs) <;> simp))

/-- `moveStep` can only kill (via `reachEnd`), never revive. -/
lemma moveStep_alive (hypot : ℚ → ℚ → ℚ) (gs dt : ℚ) (e : Enemy) (l : ℤ) :
    (Enemy.moveStep hypot gs dt e l).1.alive = true → e.alive = true := by
  unfold Enemy.moveStep
  split
  · split_ifs <;> simp
  · dsimp only
    split_ifs <;> (try simp) <;> (try (split <;> (try split_ifs) <;> simp))

/-- An update of a dead enemy changes nothing at all. -/
lemma update_dead (hypot : ℚ → ℚ → ℚ) (gs mm dt : ℚ) (e : Enemy) (m l : ℤ)
    (h : e.alive = false) : Enemy.update hypot gs mm dt e m l = (e, m, l) := by
  unfold Enemy.update; rw [if_pos h]

/-! ### Phase lemmas -/

@[simp] lemma bleedPhase_alive (dt : ℚ) (e : Enemy) :
    (Enemy.bleedPhase dt e).alive = e.alive := by
  unfold Enemy.bleedPhase; split_ifs <;> rfl

@[simp] lemma bleedPhase_slowFactor (dt : ℚ) (e : Enemy) :
    (Enemy.bleedPhase dt e).slowFactor = e.slowFactor := by
  unfold Enemy.bleedPhase; split_ifs <;> rfl

@[simp] lemma bleedPhase_slowTimer (dt : ℚ) (e : Enemy) :
    (Enemy.bleedPhase dt e).slowTimer = e.slowTimer := by
  unfold Enemy.bleedPhase; split_ifs <;> rfl

@[simp] lemma bleedPhase_stunTimer (dt : ℚ) (e : Enemy) :
    (Enemy.bleedPhase dt e).stunTimer = e.stunTimer := by
  unfold Enemy.bleedPhase; split_ifs <;> rfl

@[simp] lemma bleedPhase_waypoint (dt : ℚ) (e : Enemy) :
    (Enemy.bleedPhase dt e).waypoint = e.waypoint := by
  unfold Enemy.bleedPhase; split_ifs <;> rfl

@[simp] lemma bleedPhase_x (dt : ℚ) (e : Enemy) :
    (Enemy.bleedPhase dt e).x = e.x := by
  unfold Enemy.bleedPhase; split_ifs <;> rfl

@[simp] lemma bleedPhase_y (dt : ℚ) (e : Enemy) :
    (Enemy.bleedPhase dt e).y = e.y := by
  unfold Enemy.bleedPhase; split_ifs <;> rfl

@[simp] lemma bleedPhase_path (dt : ℚ) (e : Enemy) :
    (Enemy.bleedPhase dt e).path = e.path := by
  unfold Enemy.bleedPhase; split_ifs <;> rfl

@[simp] lemma bleedPhase_baseSpeed (dt : ℚ) (e : Enemy) :
    (Enemy.bleedPhase dt e).baseSpeed = e.baseSpeed := by
  unfold Enemy.bleedPhase; split_ifs <;> rfl

lemma bleedPhase_bleedTimer (dt : ℚ) (e : Enemy) :
    (Enemy.bleedPhase dt e).bleedTimer =
      if e.bleedTimer > 0 then e.bleedTimer - dt else e.bleedTimer := by
  unfold Enemy.bleedPhase; split_ifs <;> rfl

lemma bleedPhase_hp (dt : ℚ) (e : Enemy) :
    (Enemy.bleedPhase dt e).hp =
      if e.bleedTimer > 0 then e.hp - e.bleedDps * dt else e.hp := by
  unfold Enemy.bleedPhase; split_ifs <;> rfl

lemma bleedPhase_bleedDps (dt : ℚ) (e : Enemy) :
    (Enemy.bleedPhase dt e).bleedDps =
      if e.bleedTimer > 0 then
        (if e.bleedTimer - dt ≤ 0 then 0 else e.bleedDps)
      else e.bleedDps := by
  unfold Enemy.bleedPhase; dsimp only; split_ifs <;> rfl

@[simp] lemma slowPhase_alive (dt : ℚ) (e : Enemy) :
    (Enemy.slowPhase dt e).alive = e.alive := by
  unfold Enemy.slowPhase; split_ifs <;> rfl

@[simp] lemma slowPhase_bleedDps (dt : ℚ) (e : Enemy) :
    (Enemy.slowPhase dt e).bleedDps = e.bleedDps := by
  unfold Enemy.slowPhase; split_ifs <;> rfl

@[simp] lemma slowPhase_bleedTimer (dt : ℚ) (e : Enemy) :
    (Enemy.slowPhase dt e).bleedTimer = e.bleedTimer := by
  unfold Enemy.slowPhase; split_ifs <;> rfl

@[simp] lemma slowPhase_hp (dt : ℚ) (e : Enemy) :
    (Enemy.slowPhase dt e).hp = e.hp := by
  unfold Enemy.slowPhase; split_ifs <;> rfl

@[simp] lemma slowPhase_stunTimer (dt : ℚ) (e : Enemy) :
    (Enemy.slowPhase dt e).stunTimer = e.stunTimer := by
  unfold Enemy.slowPhase; split_ifs <;> rfl

@[simp] lemma slowPhase_waypoint (dt : ℚ) (e : Enemy) :
    (Enemy.slowPhase dt e).waypoint = e.waypoint := by
  unfold Enemy.slowPhase; split_ifs <;> rfl

@[simp] lemma slowPhase_x (dt : ℚ) (e : Enemy) :
    (Enemy.slowPhase dt e).x = e.x := by
  unfold Enemy.slowPhase; split_ifs <;> rfl

@[simp] lemma slowPhase_y (dt : ℚ) (e : Enemy) :
    (Enemy.slowPhase dt e).y = e.y := by
  unfold Enemy.slowPhase; split_ifs <;> rfl

@[simp] lemma slowPhase_path (dt : ℚ) (e : Enemy) :
    (Enemy.slowPhase dt e).path = e.path := by
  unfold Enemy.slowPhase; split_ifs <;> rfl

@[simp] lemma slowPhase_baseSpeed (dt : ℚ) (e : Enemy) :
    (Enemy.slowPhase dt e).baseSpeed = e.baseSpeed := by
  unfold Enemy.slowPhase; split_ifs <;> rfl

lemma slowPhase_slowTimer (dt : ℚ) (e : Enemy) :
    (Enemy.slowPhase dt e).slowTimer =
      if e.slowTimer > 0 then e.slowTimer - dt else e.slowTimer := by
  unfold Enemy.slowPhase; split_ifs <;> rfl

lemma slowPhase_slowFactor (dt : ℚ) (e : Enemy) :
    (Enemy.slowPhase dt e).slowFactor =
      if e.slowTimer > 0 ∧ e.slowTimer - dt ≤ 0 then 1 else e.slowFactor := by
  unfold Enemy.slowPhase; dsimp only; split_ifs <;> simp_all

/-- The bleed block preserves the status invariant. -/
lemma bleedPhase_statusInv (dt : ℚ) (e : Enemy) (h : statusInv e) :
    statusInv (Enemy.bleedPhase dt e) := by
  unfold statusInv at h ⊢
  rw [bleedPhase_bleedTimer, bleedPhase_bleedDps, bleedPhase_slowFactor,
    bleedPhase_slowTimer]
  split_ifs with h1 h2
  · exact ⟨fun _ => rfl, h.2⟩
  · exact ⟨fun hc => absurd hc h2, h.2⟩
  · exact h

/-- The slow block preserves the status invariant. -/
lemma slowPhase_statusInv (dt : ℚ) (e : Enemy) (h : statusInv e) :
    statusInv (Enemy.slowPhase dt e) := by
  unfold statusInv at h ⊢
  rw [slowPhase_slowTimer, slowPhase_slowFactor, slowPhase_bleedDps,
    slowPhase_bleedTimer]
  by_cases h1 : e.slowTimer > 0
  · rw [if_pos h1]
    by_cases h2 : e.slowTimer - dt ≤ 0
    · rw [if_pos ⟨h1, h2⟩]; exact ⟨h.1, fun _ => rfl⟩
    · rw [if_neg (by tauto)]; exact ⟨h.1, fun hc => absurd hc h2⟩
  · rw [if_neg h1, if_neg (by tauto)]
    exact ⟨h.1, fun hc => h.2 hc⟩

/-- A full `update` preserves the status invariant, for any `dt`. -/
lemma update_statusInv (hypot : ℚ → ℚ → ℚ) (gs mm dt : ℚ) (e : Enemy)
    (m l : ℤ) (h : statusInv e) :
    statusInv (Enemy.update hypot gs mm dt e m l).1 := by
  unfold Enemy.update
  dsimp only
  split_ifs with h0 hkill hstun
  · exact h
  · have h1 := bleedPhase_statusInv dt e h
    unfold statusInv at h1 ⊢
    rw [die_bleedDps, die_bleedTimer, die_slowFactor, die_slowTimer]
    exact h1
  · have h2 := slowPhase_statusInv dt (Enemy.bleedPhase dt e) (bleedPhase_statusInv dt e h)
    exact h2
  · have h2 := slowPhase_statusInv dt (Enemy.bleedPhase dt e) (bleedPhase_statusInv dt e h)
    have hf := moveStep_fields hypot gs dt (Enemy.slowPhase dt (Enemy.bleedPhase dt e)) l
    unfold statusInv at h2 ⊢
    rw [hf.1, hf.2.1, hf.2.2.1, hf.2.2.2.1]
    exact h2

/-! ### Claim theorems -/

/-- `knockback` only moves the enemy: all non-positional fields unchanged. -/
lemma knockback_status (hypot : ℚ → ℚ → ℚ) (d : ℚ) (e : Enemy) :
    (Enemy.knockback hypot d e).bleedDps = e.bleedDps ∧
    (Enemy.knockback hypot d e).bleedTimer = e.bleedTimer ∧
    (Enemy.knockback hypot d e).slowFactor = e.slowFactor ∧
    (Enemy.knockback hypot d e).slowTimer = e.slowTimer ∧
    (Enemy.knockback hypot d e).stunTimer = e.stunTimer ∧
    (Enemy.knockback hypot d e).alive = e.alive ∧
    (Enemy.knockback hypot d e).hp = e.hp := by
  unfold Enemy.knockback
  dsimp only
  repeat' split
  all_goals simp

@[simp] lemma takeDamage_bleedDps (mm d : ℚ) (e : Enemy) (m : ℤ) :
    (Enemy.takeDamage mm d e m).1.bleedDps = e.bleedDps := by
  unfold Enemy.takeDamage; dsimp only; split_ifs <;> simp

@[simp] lemma takeDamage_bleedTimer (mm d : ℚ) (e : Enemy) (m : ℤ) :
    (Enemy.takeDamage mm d e m).1.bleedTimer = e.bleedTimer := by
  unfold Enemy.takeDamage; dsimp only; split_ifs <;> simp

@[simp] lemma takeDamage_slowFactor (mm d : ℚ) (e : Enemy) (m : ℤ) :
    (Enemy.takeDamage mm d e m).1.slowFactor = e.slowFactor := by
  unfold Enemy.takeDamage; dsimp only; split_ifs <;> simp

@[simp] lemma takeDamage_slowTimer (mm d : ℚ) (e : Enemy) (m : ℤ) :
    (Enemy.takeDamage mm d e m).1.slowTimer = e.slowTimer := by
  unfold Enemy.takeDamage; dsimp only; split_ifs <;> simp

@[simp] lemma takeDamage_stunTimer (mm d : ℚ) (e : Enemy) (m : ℤ) :
    (Enemy.takeDamage mm d e m).1.stunTimer = e.stunTimer := by
  unfold Enemy.takeDamage; dsimp only; split_ifs <;> simp

/-- C3 amended: the status invariant — bleed neutral once `bleedTimer ≤ 0`,
slow neutral once `slowTimer ≤ 0` — holds at creation and is preserved by
every enemy operation, with the documented argument ranges tightened to
strictly positive durations (`duration = 0`, which the claim's "duration ≥ 0"
allows, breaks it — see the counterexample). -/
theorem statusInvariantPreserved :
    (∀ (hp sp : ℚ) (p : List Point), statusInv (mkEnemy hp sp p)) ∧
    (∀ (hypot : ℚ → ℚ → ℚ) (gs mm : ℚ) (op : EOp) (s : Enemy × ℤ × ℤ),
      opInRange op → statusInv s.1 → statusInv (applyOp hypot gs mm op s).1) := by
  constructor
  · intro hp sp p
    exact ⟨fun _ => rfl, fun _ => rfl⟩
  · intro hypot gs mm op s hr hi
    cases op with
    | update dt => exact update_statusInv hypot gs mm dt s.1 s.2.1 s.2.2 hi
    | applyBleed dps dur =>
        obtain ⟨-, hdur⟩ := hr
        exact ⟨fun hc => absurd hc (not_le.mpr (lt_max_of_lt_right hdur)), hi.2⟩
    | applySlow f dur =>
        obtain ⟨-, -, hdur⟩ := hr
        exact ⟨hi.1, fun hc => absurd hc (not_le.mpr (lt_max_of_lt_right hdur))⟩
    | applyStun dur => exact hi
    | knockback d =>
        have hk := knockback_status hypot d s.1
        unfold statusInv at hi ⊢
        rw [show (applyOp hypot gs mm (EOp.knockback d) s).1 = Enemy.knockback hypot d s.1 from rfl,
          hk.1, hk.2.1, hk.2.2.1, hk.2.2.2.1]
        exact hi
    | takeDamage d =>
        unfold statusInv at hi ⊢
        simp only [applyOp, takeDamage_bleedDps, takeDamage_bleedTimer,
          takeDamage_slowFactor, takeDamage_slowTimer]
        exact hi
    | die =>
        unfold statusInv at hi ⊢
        simp only [applyOp, die_bleedDps, die_bleedTimer, die_slowFactor,
          die_slowTimer]
        exact hi

/-- Witness for C3's amended theorem: a concrete in-range operation applied to
a fresh enemy keeps the invariant. -/
theorem statusInvariantPreservedW :
    statusInv (applyOp hypot0 1 1 (EOp.applyBleed 4 1) (mkEnemy 100 50 path0, 0, 20)).1 :=
  statusInvariantPreserved.2 hypot0 1 1 (EOp.applyBleed 4 1)
    (mkEnemy 100 50 path0, 0, 20) (by constructor <;> norm_num)
    (statusInvariantPreserved.1 100 50 path0)

/-- C1: the claim says that `speedMultiplier = 0` (pause) freezes all decay and
motion in one `update(dt)` tick.  The code disagrees: `Enemy.update` decays
`bleedTimer`, `slowTimer` and `stunTimer` by the raw `dt` and still applies
bleed damage, and `AcidPool.update` counts its lifetime down by the raw `dt` —
none of these are scaled by the speed multiplier.  This theorem evaluates the
code at the failing input: a paused tick (`gs = 0`, `dt = 1/2`) on an enemy
with all three timers at 1, `bleedDps = 5`, `hp = 100`, and on a pool with
lifetime 3. -/
theorem pausedTickStillDecays :
    (Enemy.update hypot0 0 1 (1/2) eC1 100 20).1.bleedTimer = 1/2 ∧
    (Enemy.update hypot0 0 1 (1/2) eC1 100 20).1.hp = 195/2 ∧
    (Enemy.update hypot0 0 1 (1/2) eC1 100 20).1.slowTimer = 1/2 ∧
    (Enemy.update hypot0 0 1 (1/2) eC1 100 20).1.stunTimer = 1/2 ∧
    (AcidPool.update hypot0 1 (1/2) poolC1 [] 0).1.timer = 5/2 := by
  refine ⟨?_, ?_, ?_, ?_, ?_⟩ <;>
    norm_num [Enemy.update, Enemy.bleedPhase, Enemy.slowPhase, Enemy.die, AcidPool.update, eC1, poolC1, mkEnemy, path0, hypot0]

/-- C2 counterexample: the claim says `knockback(d)` at waypoint 0 pushes the
enemy backward by exactly `min(d, 0.9 c)`.  On `eC2` (waypoint 0, `c = 10` px
past the first path point) a `knockback(5)` would have to move `x` from 10 to
`10 - min 5 (0.9*10) = 5`, but the code's opening guard
`if (this.waypoint <= 0) return;` leaves the enemy exactly where it was. -/
theorem knockbackAtStartCex :
    (Enemy.knockback hypot0 5 eC2).x = 10 ∧
    (10 : ℚ) ≠ 10 - min 5 (0.9 * 10) := by
  refine ⟨by decide, by norm_num⟩

/-- C2 amended: `knockback` at waypoint index 0 is a no-op — the enemy is left
completely unchanged (so in particular it never ends up past 90 % of the
distance already traveled on the first segment). -/
theorem knockbackWaypointZeroNoop (hypot : ℚ → ℚ → ℚ) (d : ℚ) (e : Enemy)
    (h : e.waypoint = 0) : Enemy.knockback hypot d e = e := by
  unfold Enemy.knockback
  rw [if_pos (by omega)]

/-- Witness for C2's amended theorem at the concrete enemy `eC2`. -/
theorem knockbackWaypointZeroNoopW : Enemy.knockback hypot0 5 eC2 = eC2 :=
  knockbackWaypointZeroNoop hypot0 5 eC2 rfl

/-- C3 counterexample: the claim allows `duration = 0` ("duration ≥ 0"), but
`applyBleed(4, 0)` on a fresh enemy yields `bleedTimer = 0 ≤ 0` with
`bleedDps = 4 ≠ 0`, violating the invariant. -/
theorem statusInvZeroDurationCex :
    ¬ statusInv (Enemy.applyBleed 4 0 (mkEnemy 100 50 path0)) := by
  decide

/-- C5 counterexample: the claim says a living stunned enemy's `stunTimer`
decreases on every update.  On `eC5` (alive, `stunTimer = 1`, `bleedTimer =
1`, `bleedDps = 100`, `hp = 1`) the bleed tick kills the enemy and `update`
returns before the stun block, so `stunTimer` does not decrease. -/
theorem stunnedBleedKillCex :
    ¬ (Enemy.update hypot0 1 1 1 eC5 0 20).1.stunTimer < eC5.stunTimer := by
  norm_num [Enemy.update, Enemy.bleedPhase, Enemy.slowPhase, Enemy.die, eC5, mkEnemy, path0, hypot0]

/-- C5 amended: for a living enemy with `stunTimer > 0` whose bleed tick is
not lethal, one `update(dt)` leaves position and waypoint unchanged (whatever
the distance to the next waypoint), sets `stunTimer` to `stunTimer - dt`, and
still decays `bleedTimer`/`slowTimer` and applies bleed damage when the
respective timers are positive.  (Without the non-lethality hypothesis the
claim fails: a lethal bleed tick returns before the stun block — see the
counterexample.) -/
theorem stunnedUpdateNoMotion (hypot : ℚ → ℚ → ℚ) (gs mm dt : ℚ) (e : Enemy)
    (m l : ℤ)
    (halive : e.alive = true)
    (hstun : 0 < e.stunTimer)
    (hsurvive : 0 < e.bleedTimer → 0 < e.hp - e.bleedDps * dt) :
    (Enemy.update hypot gs mm dt e m l).1.x = e.x ∧
    (Enemy.update hypot gs mm dt e m l).1.y = e.y ∧
    (Enemy.update hypot gs mm dt e m l).1.waypoint = e.waypoint ∧
    (Enemy.update hypot gs mm dt e m l).1.stunTimer = e.stunTimer - dt ∧
    (Enemy.update hypot gs mm dt e m l).1.bleedTimer =
      (if 0 < e.bleedTimer then e.bleedTimer - dt else e.bleedTimer) ∧
    (Enemy.update hypot gs mm dt e m l).1.slowTimer =
      (if 0 < e.slowTimer then e.slowTimer - dt else e.slowTimer) ∧
    (Enemy.update hypot gs mm dt e m l).1.hp =
      (if 0 < e.bleedTimer then e.hp - e.bleedDps * dt else e.hp) := by
  have h0 : ¬ e.alive = false := by simp [halive]
  have hkill : ¬ (e.bleedTimer > 0 ∧ (Enemy.bleedPhase dt e).hp ≤ 0) := by
    rintro ⟨hb, hhp⟩
    rw [bleedPhase_hp, if_pos hb] at hhp
    exact absurd hhp (not_le.mpr (hsurvive hb))
  have hstun2 : (Enemy.slowPhase dt (Enemy.bleedPhase dt e)).stunTimer > 0 := by
    simpa using hstun
  unfold Enemy.update
  rw [if_neg h0]
  dsimp only
  rw [if_neg hkill, if_pos hstun2]
  refine ⟨?_, ?_, ?_, ?_, ?_, ?_, ?_⟩ <;>
    simp [bleedPhase_bleedTimer, bleedPhase_hp, slowPhase_slowTimer]

/-- A stunned, bleeding, slowed enemy that survives its bleed tick. -/
def eC5b : Enemy :=
  { mkEnemy 100 5 path0 with stunTimer := 2, bleedTimer := 1, bleedDps := 3,
                             slowTimer := 1 }

/-- Witness for C5's amended theorem at the concrete enemy `eC5b`. -/
theorem stunnedUpdateNoMotionW :
    (Enemy.update hypot0 1 1 (1/2) eC5b 0 20).1.x = eC5b.x ∧
    (Enemy.update hypot0 1 1 (1/2) eC5b 0 20).1.y = eC5b.y ∧
    (Enemy.update hypot0 1 1 (1/2) eC5b 0 20).1.waypoint = eC5b.waypoint ∧
    (Enemy.update hypot0 1 1 (1/2) eC5b 0 20).1.stunTimer = eC5b.stunTimer - 1/2 ∧
    (Enemy.update hypot0 1 1 (1/2) eC5b 0 20).1.bleedTimer =
      (if 0 < eC5b.bleedTimer then eC5b.bleedTimer - 1/2 else eC5b.bleedTimer) ∧
    (Enemy.update hypot0 1 1 (1/2) eC5b 0 20).1.slowTimer =
      (if 0 < eC5b.slowTimer then eC5b.slowTimer - 1/2 else eC5b.slowTimer) ∧
    (Enemy.update hypot0 1 1 (1/2) eC5b 0 20).1.hp =
      (if 0 < eC5b.bleedTimer then eC5b.hp - eC5b.bleedDps * (1/2) else eC5b.hp) :=
  stunnedUpdateNoMotion hypot0 1 1 (1/2) eC5b 0 20 rfl
    (by norm_num [eC5b, mkEnemy])
    (fun _ => by norm_num [eC5b, mkEnemy])

/-- C7: when the movement step advances a living enemy's waypoint index onto
the path's last point, exactly one life is deducted, the enemy's `alive` flag
becomes false, money is untouched, and any later `update` (with any
arguments) leaves both the enemy and the globals unchanged — the Escaped state
is terminal. -/
theorem finalWaypointTerminal (hypot : ℚ → ℚ → ℚ) (gs mm dt : ℚ) (e : Enemy)
    (m l : ℤ) (t : Point)
    (halive : e.alive = true)
    (hsurvive : 0 < e.bleedTimer → 0 < e.hp - e.bleedDps * dt)
    (hstun : ¬ 0 < e.stunTimer)
    (ht : e.path.get? (e.waypoint + 1) = some t)
    (hlast : e.waypoint + 2 = e.path.length)
    (hsnap : hypot (t.x - e.x) (t.y - e.y) ≤
      e.baseSpeed * (if 0 < e.slowTimer ∧ e.slowTimer - dt ≤ 0 then 1 else e.slowFactor) *
        gs * dt + 2) :
    (Enemy.update hypot gs mm dt e m l).2.2 = l - 1 ∧
    (Enemy.update hypot gs mm dt e m l).1.alive = false ∧
    (Enemy.update hypot gs mm dt e m l).2.1 = m ∧
    ∀ (hypot2 : ℚ → ℚ → ℚ) (gs2 mm2 dt2 : ℚ) (m2 l2 : ℤ),
      Enemy.update hypot2 gs2 mm2 dt2 (Enemy.update hypot gs mm dt e m l).1 m2 l2 =
        ((Enemy.update hypot gs mm dt e m l).1, m2, l2) := by
  have h0 : ¬ e.alive = false := by simp [halive]
  have hkill : ¬ (e.bleedTimer > 0 ∧ (Enemy.bleedPhase dt e).hp ≤ 0) := by
    rintro ⟨hb, hhp⟩
    rw [bleedPhase_hp, if_pos hb] at hhp
    exact absurd hhp (not_le.mpr (hsurvive hb))
  have hstun2 : ¬ (Enemy.slowPhase dt (Enemy.bleedPhase dt e)).stunTimer > 0 := by
    simpa using hstun
  have hupd : Enemy.update hypot gs mm dt e m l =
      ((Enemy.moveStep hypot gs dt (Enemy.slowPhase dt (Enemy.bleedPhase dt e)) l).1, m,
        (Enemy.moveStep hypot gs dt (Enemy.slowPhase dt (Enemy.bleedPhase dt e)) l).2) := by
    unfold Enemy.update
    rw [if_neg h0]
    dsimp only
    rw [if_neg hkill, if_neg hstun2]
  set e2 := Enemy.slowPhase dt (Enemy.bleedPhase dt e) with he2
  have hsf : e2.slowFactor =
      (if 0 < e.slowTimer ∧ e.slowTimer - dt ≤ 0 then 1 else e.slowFactor) := by
    rw [he2, slowPhase_slowFactor]
    simp
  have hget : e2.path.get? (e2.waypoint + 1) = some t := by
    rw [he2]; simpa using ht
  have hms : Enemy.moveStep hypot gs dt e2 l =
      Enemy.reachEnd { e2 with x := t.x, y := t.y, waypoint := e2.waypoint + 1 } l := by
    unfold Enemy.moveStep
    rw [hget]
    dsimp only
    rw [if_pos ?hdist, if_pos ?hend]
    case hdist =>
      have hx : e2.x = e.x := by rw [he2]; simp
      have hy : e2.y = e.y := by rw [he2]; simp
      have hbs : e2.baseSpeed = e.baseSpeed := by rw [he2]; simp
      rw [hx, hy, hbs, hsf]
      exact hsnap
    case hend =>
      have hw : e2.waypoint = e.waypoint := by rw [he2]; simp
      have hp2 : e2.path = e.path := by rw [he2]; simp
      simp only [hw, hp2]
      push_cast
      omega
  have he2alive : e2.alive = true := by
    rw [he2]; simpa using halive
  have hre : Enemy.reachEnd { e2 with x := t.x, y := t.y, waypoint := e2.waypoint + 1 } l =
      ({ e2 with x := t.x, y := t.y, waypoint := e2.waypoint + 1, alive := false }, l - 1) := by
    unfold Enemy.reachEnd
    rw [if_neg (by simp [he2alive])]
  rw [hupd, hms, hre]
  refine ⟨rfl, rfl, rfl, ?_⟩
  intro hypot2 gs2 mm2 dt2 m2 l2
  exact update_dead hypot2 gs2 mm2 dt2 _ m2 l2 rfl

/-- A hypot stand-in returning the one distance C7's witness needs. -/
def hypot10 : ℚ → ℚ → ℚ := fun _ _ => 10

/-- A healthy enemy 10 px before the final waypoint of `path0`. -/
def eC7 : Enemy := { mkEnemy 100 5 path0 with x := 90 }

/-- Witness for C7 at the concrete enemy `eC7` (speed 5, `dt = 2`, so the
10 px gap is inside the snap threshold `5*1*1*2 + 2`). -/
theorem finalWaypointTerminalW :
    (Enemy.update hypot10 1 1 2 eC7 0 20).2.2 = 20 - 1 ∧
    (Enemy.update hypot10 1 1 2 eC7 0 20).1.alive = false ∧
    (Enemy.update hypot10 1 1 2 eC7 0 20).2.1 = 0 ∧
    Enemy.update hypot0 3 1 1 (Enemy.update hypot10 1 1 2 eC7 0 20).1 7 9 =
      ((Enemy.update hypot10 1 1 2 eC7 0 20).1, 7, 9) := by
  have h := finalWaypointTerminal hypot10 1 1 2 eC7 0 20 ⟨100, 0⟩ rfl
    (fun hc => by norm_num [eC7, mkEnemy] at hc)
    (by norm_num [eC7, mkEnemy])
    (by norm_num [eC7, mkEnemy, path0])
    (by norm_num [eC7, mkEnemy, path0])
    (by norm_num [eC7, mkEnemy, hypot10])
  exact ⟨h.1, h.2.1, h.2.2.1, h.2.2.2 hypot0 3 1 1 7 9⟩

/-- C6: `applyBleed(dps, duration)` is strongest-wins / refresh-not-stack:
it sets `bleedDps` to `max(current, dps)` and `bleedTimer` to `max(current,
duration)` (changing nothing else); in particular `applyBleed(4,2)` then
`applyBleed(6,1)` on a fresh enemy yields `bleedDps = 6`, `bleedTimer = 2`. -/
theorem applyBleedStrongestWins :
    (∀ (e : Enemy) (dps duration : ℚ),
      Enemy.applyBleed dps duration e =
        { e with bleedDps := max e.bleedDps dps,
                 bleedTimer := max e.bleedTimer duration }) ∧
    (Enemy.applyBleed 6 1 (Enemy.applyBleed 4 2 (mkEnemy 100 50 path0))).bleedDps = 6 ∧
    (Enemy.applyBleed 6 1 (Enemy.applyBleed 4 2 (mkEnemy 100 50 path0))).bleedTimer = 2 := by
  refine ⟨fun e dps duration => rfl, by decide, by decide⟩

/-- C8: the number of regular enemies scheduled by `startNextWave` equals the
spec's formula `max(1, round((6 + floor(1.2*w)) * countMult))` for every wave
`w ≥ 1` and positive count multiplier, and equals 12 for `w = 5`,
`countMult = 1`. -/
theorem waveSpawnCountFormula :
    (∀ (w : ℕ) (m : ℚ), 1 ≤ w → 0 < m → startWaveCount w m = specWaveCount w m) ∧
    startWaveCount 5 1 = 12 := by
  constructor
  · intro w m _ hm
    unfold startWaveCount specWaveCount jsOrOne
    rw [if_neg (ne_of_gt hm), mul_comm (1.2 : ℚ) (w : ℚ)]
  · unfold startWaveCount jsOrOne jsRound
    norm_num

/-- Witness for C8 at `w = 5`, `countMult = 1`. -/
theorem waveSpawnCountFormulaW :
    startWaveCount 5 1 = specWaveCount 5 1 ∧ startWaveCount 5 1 = 12 :=
  ⟨waveSpawnCountFormula.1 5 1 (by norm_num) (by norm_num),
   waveSpawnCountFormula.2⟩

/-- C4: a pierce bolt with `pierce = 2` whose post-step position is in contact
with the three living enemies of the list damages exactly the first two (one
`takeDamage` application of the bolt's damage each), leaves the third
untouched, and is deactivated (pierce 0) by the second hit. -/
theorem pierceBoltTwoHits (hypot : ℚ → ℚ → ℚ) (cosF sinF : ℚ → ℚ)
    (wB hB gs mm dt : ℚ) (s : SpikeProjectile) (e1 e2 e3 : Enemy) (m : ℤ)
    (hs : s.alive = true) (hp : s.pierce = 2)
    (h1 : e1.alive = true ∧
      hypot (e1.x - (s.x + cosF s.angle * (s.speed * dt * gs)))
            (e1.y - (s.y + sinF s.angle * (s.speed * dt * gs))) < e1.radius + 4)
    (h2 : e2.alive = true ∧
      hypot (e2.x - (s.x + cosF s.angle * (s.speed * dt * gs)))
            (e2.y - (s.y + sinF s.angle * (s.speed * dt * gs))) < e2.radius + 4)
    (h3 : e3.alive = true ∧
      hypot (e3.x - (s.x + cosF s.angle * (s.speed * dt * gs)))
            (e3.y - (s.y + sinF s.angle * (s.speed * dt * gs))) < e3.radius + 4) :
    (SpikeProjectile.update hypot cosF sinF wB hB gs mm dt s [e1, e2, e3] m).2.1 =
      [(Enemy.takeDamage mm s.damage e1 m).1,
       (Enemy.takeDamage mm s.damage e2 (Enemy.takeDamage mm s.damage e1 m).2).1,
       e3] ∧
    (SpikeProjectile.update hypot cosF sinF wB hB gs mm dt s [e1, e2, e3] m).2.2 =
      (Enemy.takeDamage mm s.damage e2 (Enemy.takeDamage mm s.damage e1 m).2).2 ∧
    (SpikeProjectile.update hypot cosF sinF wB hB gs mm dt s [e1, e2, e3] m).1.alive = false ∧
    (SpikeProjectile.update hypot cosF sinF wB hB gs mm dt s [e1, e2, e3] m).1.pierce = 0 := by
  have hpier1 : ¬ (s.pierce - 1 ≤ 0) := by rw [hp]; norm_num
  have hpier2 : s.pierce - 1 - 1 ≤ 0 := by rw [hp]; norm_num
  have hloop : spikeHitLoop hypot mm (s.x + cosF s.angle * (s.speed * dt * gs))
      (s.y + sinF s.angle * (s.speed * dt * gs)) s.damage [e1, e2, e3] s.pierce m =
      ((Enemy.takeDamage mm s.damage e1 m).1 ::
        (Enemy.takeDamage mm s.damage e2 (Enemy.takeDamage mm s.damage e1 m).2).1 :: [e3],
       s.pierce - 1 - 1, false,
       (Enemy.takeDamage mm s.damage e2 (Enemy.takeDamage mm s.damage e1 m).2).2) := by
    simp only [spikeHitLoop]
    rw [if_pos h1, if_neg hpier1, if_pos h2, if_pos hpier2]
  have hzero : s.pierce - 1 - 1 = 0 := by rw [hp]; norm_num
  unfold SpikeProjectile.update
  rw [if_neg (by simp [hs])]
  dsimp only
  rw [hloop]
  split_ifs <;> exact ⟨rfl, rfl, rfl, hzero⟩

/-- The cosine/sine stand-ins at angle 0 (where they are exactly right). -/
def cosOne : ℚ → ℚ := fun _ => 1

/-- See `cosOne`. -/
def sinZero : ℚ → ℚ := fun _ => 0

/-- A concrete pierce-2 bolt heading right at speed 10. -/
def spikeC4 : SpikeProjectile :=
  { x := 0, y := 0, angle := 0, speed := 10, damage := 3, pierce := 2, alive := true }

/-- Witness for C4: the bolt steps to (10,0) where three copies of `eC2`
(position (10,0), radius 10) are all in contact. -/
theorem pierceBoltTwoHitsW :
    (SpikeProjectile.update hypot0 cosOne sinZero 960 540 1 1 1 spikeC4 [eC2, eC2, eC2] 0).2.1 =
      [(Enemy.takeDamage 1 spikeC4.damage eC2 0).1,
       (Enemy.takeDamage 1 spikeC4.damage eC2 (Enemy.takeDamage 1 spikeC4.damage eC2 0).2).1,
       eC2] ∧
    (SpikeProjectile.update hypot0 cosOne sinZero 960 540 1 1 1 spikeC4 [eC2, eC2, eC2] 0).2.2 =
      (Enemy.takeDamage 1 spikeC4.damage eC2 (Enemy.takeDamage 1 spikeC4.damage eC2 0).2).2 ∧
    (SpikeProjectile.update hypot0 cosOne sinZero 960 540 1 1 1 spikeC4 [eC2, eC2, eC2] 0).1.alive
      = false ∧
    (SpikeProjectile.update hypot0 cosOne sinZero 960 540 1 1 1 spikeC4 [eC2, eC2, eC2] 0).1.pierce
      = 0 :=
  pierceBoltTwoHits hypot0 cosOne sinZero 960 540 1 1 1 spikeC4 eC2 eC2 eC2 0 rfl rfl
    ⟨rfl, by norm_num [hypot0, eC2, mkEnemy]⟩
    ⟨rfl, by norm_num [hypot0, eC2, mkEnemy]⟩
    ⟨rfl, by norm_num [hypot0, eC2, mkEnemy]⟩

/-! ### C9: nearest-enemy search -/

/-- One step of the search loop against a populated accumulator. -/
lemma stepNearest_some (dist : Enemy → ℚ) (range : ℚ) (b e : Enemy) :
    stepNearest dist range (some b, some (dist b)) e =
      if e.alive = true ∧ dist e ≤ range ∧ dist e < dist b then (some e, some (dist e))
      else (some b, some (dist b)) := by
  unfold stepNearest
  dsimp only
  by_cases he : e.alive = false
  · rw [if_pos he, if_neg (by rintro ⟨h1', -⟩; rw [he] at h1'; cases h1')]
  · rw [if_neg he]
    have he' : e.alive = true := by simpa using he
    by_cases hcond : dist e ≤ range ∧ dist e < dist b
    · rw [if_pos hcond, if_pos ⟨he', hcond.1, hcond.2⟩]
    · rw [if_neg hcond, if_neg (by tauto)]

/-- One step of the search loop against the empty (`Infinity`) accumulator. -/
lemma stepNearest_none (dist : Enemy → ℚ) (range : ℚ) (e : Enemy) :
    stepNearest dist range (none, none) e =
      if e.alive = true ∧ dist e ≤ range then (some e, some (dist e))
      else (none, none) := by
  unfold stepNearest
  dsimp only
  by_cases he : e.alive = false
  · rw [if_pos he, if_neg (by rintro ⟨h1', -⟩; rw [he] at h1'; cases h1')]
  · rw [if_neg he]
    have he' : e.alive = true := by simpa using he
    by_cases hr : dist e ≤ range
    · rw [if_pos hr, if_pos ⟨he', hr⟩]
    · rw [if_neg hr, if_neg (by tauto)]

/-- Running the loop with best candidate `b` behaves like `firstMin` of the
remaining list, with `b` winning ties (it came earlier). -/
lemma foldl_stepNearest_some (dist : Enemy → ℚ) (range : ℚ) (l : List Enemy) :
    ∀ b : Enemy,
      (l.foldl (stepNearest dist range) (some b, some (dist b))).1 =
        (match firstMin dist range l with
          | none => some b
          | some c => if dist c < dist b then some c else some b) := by
  induction l with
  | nil => intro b; rfl
  | cons e rest ih =>
      intro b
      rw [List.foldl_cons, stepNearest_some]
      by_cases hcond : e.alive = true ∧ dist e ≤ range ∧ dist e < dist b
      · rw [if_pos hcond, ih e]
        have hc : e.alive = true ∧ dist e ≤ range := ⟨hcond.1, hcond.2.1⟩
        simp only [firstMin]
        rw [if_pos hc]
        cases hfm : firstMin dist range rest with
        | none => simp [hcond.2.2]
        | some c =>
            by_cases hec : dist e ≤ dist c
            · simp [hec, not_lt.mpr hec, hcond.2.2]
            · simp [hec, not_le.mp hec, lt_trans (not_le.mp hec) hcond.2.2]
      · rw [if_neg hcond, ih b]
        by_cases hc : e.alive = true ∧ dist e ≤ range
        · have hbe : ¬ dist e < dist b := fun hlt => hcond ⟨hc.1, hc.2, hlt⟩
          simp only [firstMin]
          rw [if_pos hc]
          cases hfm : firstMin dist range rest with
          | none => simp [hbe]
          | some c =>
              by_cases hec : dist e ≤ dist c
              · have hcb : ¬ dist c < dist b := fun h => hbe (lt_of_le_of_lt hec h)
                simp [hec, hbe, hcb]
              · simp [hec]
        · simp only [firstMin]
          rw [if_neg hc]

/-- The search loop from the empty accumulator computes `firstMin`. -/
lemma foldl_stepNearest_none (dist : Enemy → ℚ) (range : ℚ) (l : List Enemy) :
    (l.foldl (stepNearest dist range) (none, none)).1 = firstMin dist range l := by
  induction l with
  | nil => rfl
  | cons e rest ih =>
      rw [List.foldl_cons, stepNearest_none]
      by_cases hc : e.alive = true ∧ dist e ≤ range
      · rw [if_pos hc, foldl_stepNearest_some dist range rest e]
        simp only [firstMin]
        rw [if_pos hc]
        cases hfm : firstMin dist range rest with
        | none => rfl
        | some c =>
            dsimp only
            by_cases hec : dist e ≤ dist c
            · rw [if_pos hec, if_neg (not_lt.mpr hec)]
            · rw [if_neg hec, if_pos (not_le.mp hec)]
      · rw [if_neg hc, ih]
        simp only [firstMin]
        rw [if_neg hc]

/-- `firstMin` returns nothing exactly when no element qualifies. -/
lemma firstMin_none_iff (dist : Enemy → ℚ) (range : ℚ) (l : List Enemy) :
    firstMin dist range l = none ↔
      ∀ e ∈ l, ¬ (e.alive = true ∧ dist e ≤ range) := by
  induction l with
  | nil => simp [firstMin]
  | cons e rest ih =>
      simp only [firstMin]
      by_cases hc : e.alive = true ∧ dist e ≤ range
      · rw [if_pos hc]
        constructor
        · intro h
          cases hfm : firstMin dist range rest with
          | none => rw [hfm] at h; cases h
          | some c => rw [hfm] at h; dsimp only at h; split_ifs at h <;> cases h
        · intro h
          exact absurd hc (h e (by simp))
      · rw [if_neg hc, ih]
        constructor
        · intro h e' he'
          rcases List.mem_cons.mp he' with rfl | hm
          · exact hc
          · exact h e' hm
        · intro h e' he'
          exact h e' (List.mem_cons_of_mem _ he')

/-- A successful `firstMin` result qualifies, is distance-minimal among the
qualifying elements, and strictly beats every qualifying element before it in
the list. -/
lemma firstMin_some (dist : Enemy → ℚ) (range : ℚ) (l : List Enemy) :
    ∀ b, firstMin dist range l = some b →
      (b.alive = true ∧ dist b ≤ range) ∧
      (∀ e ∈ l, e.alive = true → dist e ≤ range → dist b ≤ dist e) ∧
      ∃ l1 l2, l = l1 ++ b :: l2 ∧
        ∀ e ∈ l1, e.alive = true → dist e ≤ range → dist b < dist e := by
  induction l with
  | nil => intro b h; cases h
  | cons e rest ih =>
      intro b h
      simp only [firstMin] at h
      by_cases hc : e.alive = true ∧ dist e ≤ range
      · rw [if_pos hc] at h
        cases hfm : firstMin dist range rest with
        | none =>
            rw [hfm] at h
            dsimp only at h
            injection h with hb
            subst hb
            refine ⟨hc, ?_, [], rest, rfl, by simp⟩
            intro e' he' ha' hr'
            rcases List.mem_cons.mp he' with rfl | hm
            · exact le_refl _
            · exact absurd ⟨ha', hr'⟩ ((firstMin_none_iff dist range rest).mp hfm e' hm)
        | some c =>
            rw [hfm] at h
            dsimp only at h
            obtain ⟨hcandc, hminc, l1, l2, hsplit, hfirst⟩ := ih c hfm
            by_cases hec : dist e ≤ dist c
            · rw [if_pos hec] at h
              injection h with hb
              subst hb
              refine ⟨hc, ?_, [], rest, rfl, by simp⟩
              intro e' he' ha' hr'
              rcases List.mem_cons.mp he' with rfl | hm
              · exact le_refl _
              · exact le_trans hec (hminc e' hm ha' hr')
            · rw [if_neg hec] at h
              injection h with hb
              subst hb
              refine ⟨hcandc, ?_, e :: l1, l2, by rw [hsplit, List.cons_append], ?_⟩
              · intro e' he' ha' hr'
                rcases List.mem_cons.mp he' with rfl | hm
                · exact (not_le.mp hec).le
                · exact hminc e' hm ha' hr'
              · intro e' he' ha' hr'
                rcases List.mem_cons.mp he' with rfl | hm
                · exact not_le.mp hec
                · exact hfirst e' hm ha' hr'
      · rw [if_neg hc] at h
        obtain ⟨hcandb, hminb, l1, l2, hsplit, hfirst⟩ := ih b h
        refine ⟨hcandb, ?_, e :: l1, l2, by rw [hsplit, List.cons_append], ?_⟩
        · intro e' he' ha' hr'
          rcases List.mem_cons.mp he' with rfl | hm
          · exact absurd ⟨ha', hr'⟩ hc
          · exact hminb e' hm ha' hr'
        · intro e' he' ha' hr'
          rcases List.mem_cons.mp he' with rfl | hm
          · exact absurd ⟨ha', hr'⟩ hc
          · exact hfirst e' hm ha' hr'

/-- C9: `findNearestEnemy` returns no target exactly when no living enemy is
within range; a returned target is living, in range, distance-minimal among
living in-range enemies, and the earliest such minimiser in iteration order
(every qualifying enemy before it in the list is strictly farther). -/
theorem findNearestEnemyCorrect (hypot : ℚ → ℚ → ℚ) (x y range : ℚ)
    (enemies : List Enemy) :
    (findNearestEnemy hypot x y range enemies = none ↔
      ∀ e ∈ enemies, e.alive = true → ¬ hypot (e.x - x) (e.y - y) ≤ range) ∧
    (∀ b, findNearestEnemy hypot x y range enemies = some b →
      b.alive = true ∧ hypot (b.x - x) (b.y - y) ≤ range ∧
      (∀ e ∈ enemies, e.alive = true → hypot (e.x - x) (e.y - y) ≤ range →
        hypot (b.x - x) (b.y - y) ≤ hypot (e.x - x) (e.y - y)) ∧
      ∃ l1 l2, enemies = l1 ++ b :: l2 ∧
        ∀ e ∈ l1, e.alive = true → hypot (e.x - x) (e.y - y) ≤ range →
          hypot (b.x - x) (b.y - y) < hypot (e.x - x) (e.y - y)) := by
  have heq : findNearestEnemy hypot x y range enemies =
      firstMin (fun e => hypot (e.x - x) (e.y - y)) range enemies :=
    foldl_stepNearest_none (fun e => hypot (e.x - x) (e.y - y)) range enemies
  constructor
  · rw [heq, firstMin_none_iff]
    simp [not_and]
  · intro b hb
    rw [heq] at hb
    obtain ⟨hcand, hmin, l1, l2, hsplit, hfirst⟩ :=
      firstMin_some (fun e => hypot (e.x - x) (e.y - y)) range enemies b hb
    exact ⟨hcand.1, hcand.2, hmin, l1, l2, hsplit, hfirst⟩

/-- Witness for C9 on a one-element list: the search returns that enemy and
the theorem certifies it is alive and in range. -/
theorem findNearestEnemyCorrectW :
    eC2.alive = true ∧ hypot0 (eC2.x - 0) (eC2.y - 0) ≤ 100 :=
  ⟨((findNearestEnemyCorrect hypot0 0 0 100 [eC2]).2 eC2 rfl).1,
   ((findNearestEnemyCorrect hypot0 0 0 100 [eC2]).2 eC2 rfl).2.1⟩

/-! ### C10: death award paid at most once -/

/-- Per-tick money/aliveness bookkeeping for `update`: aliveness is monotone
(never revived) and money either stays or receives exactly one death reward,
the latter only when the enemy dies during this call. -/
lemma update_money_alive (hypot : ℚ → ℚ → ℚ) (gs mm dt : ℚ) (e : Enemy)
    (m l : ℤ) :
    ((Enemy.update hypot gs mm dt e m l).1.alive = true → e.alive = true) ∧
    ((Enemy.update hypot gs mm dt e m l).2.1 = m ∨
      ((Enemy.update hypot gs mm dt e m l).2.1 = m + jsRound (10 * mm) ∧
        e.alive = true ∧ (Enemy.update hypot gs mm dt e m l).1.alive = false)) := by
  by_cases h0 : e.alive = false
  · rw [update_dead _ _ _ _ _ _ _ h0]
    exact ⟨fun h => h, Or.inl rfl⟩
  · have halive : e.alive = true := by simpa using h0
    refine ⟨fun _ => halive, ?_⟩
    unfold Enemy.update
    rw [if_neg h0]
    dsimp only
    split_ifs with hkill hstun
    · right
      refine ⟨?_, halive, by simp⟩
      rw [die_snd]
      simp [halive]
    · exact Or.inl rfl
    · exact Or.inl rfl

/-- The same bookkeeping for `takeDamage`. -/
lemma takeDamage_money_alive (mm d : ℚ) (e : Enemy) (m : ℤ) :
    ((Enemy.takeDamage mm d e m).1.alive = true → e.alive = true) ∧
    ((Enemy.takeDamage mm d e m).2 = m ∨
      ((Enemy.takeDamage mm d e m).2 = m + jsRound (10 * mm) ∧
        e.alive = true ∧ (Enemy.takeDamage mm d e m).1.alive = false)) := by
  unfold Enemy.takeDamage
  dsimp only
  split_ifs with h
  · constructor
    · intro hd; rw [die_fst_alive] at hd; cases hd
    · by_cases ha : e.alive = true
      · right; refine ⟨?_, ha, by simp⟩; rw [die_snd]; simp [ha]
      · left; rw [die_snd]; simp [ha]
  · exact ⟨fun h2 => by simpa using h2, Or.inl rfl⟩

/-- The same bookkeeping for `die` itself. -/
lemma die_money_alive (mm : ℚ) (e : Enemy) (m : ℤ) :
    ((Enemy.die mm e m).1.alive = true → e.alive = true) ∧
    ((Enemy.die mm e m).2 = m ∨
      ((Enemy.die mm e m).2 = m + jsRound (10 * mm) ∧
        e.alive = true ∧ (Enemy.die mm e m).1.alive = false)) := by
  constructor
  · intro h; rw [die_fst_alive] at h; cases h
  · by_cases ha : e.alive = true
    · right; exact ⟨by rw [die_snd]; simp [ha], ha, by simp⟩
    · left; rw [die_snd]; simp [ha]

/-- The bookkeeping extended to every operation. -/
lemma applyOp_money_alive (hypot : ℚ → ℚ → ℚ) (gs mm : ℚ) (op : EOp)
    (s : Enemy × ℤ × ℤ) :
    ((applyOp hypot gs mm op s).1.alive = true → s.1.alive = true) ∧
    ((applyOp hypot gs mm op s).2.1 = s.2.1 ∨
      ((applyOp hypot gs mm op s).2.1 = s.2.1 + jsRound (10 * mm) ∧
        s.1.alive = true ∧ (applyOp hypot gs mm op s).1.alive = false)) := by
  cases op with
  | update dt => exact update_money_alive hypot gs mm dt s.1 s.2.1 s.2.2
  | applyBleed dps dur => exact ⟨fun h => h, Or.inl rfl⟩
  | applySlow f dur => exact ⟨fun h => h, Or.inl rfl⟩
  | applyStun dur => exact ⟨fun h => h, Or.inl rfl⟩
  | knockback d =>
      refine ⟨fun h => ?_, Or.inl rfl⟩
      rw [show (applyOp hypot gs mm (EOp.knockback d) s).1 =
        Enemy.knockback hypot d s.1 from rfl,
        (knockback_status hypot d s.1).2.2.2.2.2.1] at h
      exact h
  | takeDamage d => exact takeDamage_money_alive mm d s.1 s.2.1
  | die => exact die_money_alive mm s.1 s.2.1

/-- The bookkeeping composes over arbitrary operation sequences. -/
lemma applyOps_money_alive (hypot : ℚ → ℚ → ℚ) (gs mm : ℚ) (ops : List EOp) :
    ∀ (s : Enemy × ℤ × ℤ),
    ((applyOps hypot gs mm ops s).1.alive = true → s.1.alive = true) ∧
    ((applyOps hypot gs mm ops s).2.1 = s.2.1 ∨
      ((applyOps hypot gs mm ops s).2.1 = s.2.1 + jsRound (10 * mm) ∧
        s.1.alive = true ∧ (applyOps hypot gs mm ops s).1.alive = false)) := by
  induction ops with
  | nil => exact fun s => ⟨fun h => h, Or.inl rfl⟩
  | cons op ops ih =>
      intro s
      simp only [applyOps]
      have h1 := applyOp_money_alive hypot gs mm op s
      have h2 := ih (applyOp hypot gs mm op s)
      refine ⟨fun h => h1.1 (h2.1 h), ?_⟩
      rcases h2.2 with hm2 | ⟨hm2, ha2, hd2⟩
      · rcases h1.2 with hm1 | ⟨hm1, ha1, hd1⟩
        · left; rw [hm2, hm1]
        · right
          refine ⟨by rw [hm2, hm1], ha1, ?_⟩
          cases hfinal : (applyOps hypot gs mm ops (applyOp hypot gs mm op s)).1.alive
          · rfl
          · rw [h2.1 hfinal] at hd1; cases hd1
      · rcases h1.2 with hm1 | ⟨hm1, ha1, hd1⟩
        · right; exact ⟨by rw [hm2, hm1], h1.1 ha2, hd2⟩
        · rw [hd1] at ha2; cases ha2

/-- C10: `die()` on a dead enemy changes nothing (no second award, no field
change), and over any sequence of enemy operations the shared money counter
receives the death reward `round(10*moneyMult)` at most once per enemy — it
either stays unchanged or grows by exactly one reward, the latter only when
the enemy went from alive to dead during the sequence. -/
theorem dieIdempotentMoneyOnce :
    (∀ (mm : ℚ) (e : Enemy) (m : ℤ), e.alive = false → Enemy.die mm e m = (e, m)) ∧
    (∀ (hypot : ℚ → ℚ → ℚ) (gs mm : ℚ) (ops : List EOp) (e : Enemy) (m l : ℤ),
      (applyOps hypot gs mm ops (e, m, l)).2.1 = m ∨
        ((applyOps hypot gs mm ops (e, m, l)).2.1 = m + jsRound (10 * mm) ∧
          e.alive = true ∧ (applyOps hypot gs mm ops (e, m, l)).1.alive = false)) := by
  constructor
  · intro mm e m h
    unfold Enemy.die
    rw [if_pos h]
  · intro hypot gs mm ops e m l
    exact (applyOps_money_alive hypot gs mm ops (e, m, l)).2

/-- Witness for C10: a second `die` on an already-dead enemy is a no-op. -/
theorem dieIdempotentMoneyOnceW :
    Enemy.die 1 (Enemy.die 1 (mkEnemy 5 5 path0) 0).1 (Enemy.die 1 (mkEnemy 5 5 path0) 0).2 =
      ((Enemy.die 1 (mkEnemy 5 5 path0) 0).1, (Enemy.die 1 (mkEnemy 5 5 path0) 0).2) :=
  dieIdempotentMoneyOnce.1 1 _ _ (by simp)

end TD
